import Mathlib

/-
Verification of the `AppStateStore` key-value store adapter
(`linera-sdk/src/views/system_api.rs`).

The adapter sits between a sandboxed guest and a host key-value store.
Every public entry point validates key lengths against `MAX_KEY_SIZE`
before issuing any host call; read operations construct a host-call
promise, yield once, and poll it, while `write_batch` translates the
batch and submits it to the host in a single synchronous call.

We model each entry point as a pure function from the host's responses
(a `Host` record of response functions) and the arguments to a
`CallResult`: the returned `Except` value, the ordered list of host
calls issued during the operation, and the number of cooperative
suspensions (`yield_once().await` occurrences) performed.
-/

namespace SystemApi

/-- Keys and values are opaque byte sequences; only lengths and equality
matter to the adapter, so bytes are modelled as natural numbers. -/
abbrev Bytes := List Nat

/-- Maximum key size of the adapter, from the constant `MAX_KEY_SIZE: usize = 900`
in `system_api.rs` (1024-byte DynamoDb limit, minus 4 for value splitting,
reduced to 900 for base-key headroom). -/
def MAX_KEY_SIZE : Nat := 900

/-- Rust `usize::MAX` on the 64-bit targets the SDK builds for. -/
def USIZE_MAX : Nat := 2 ^ 64 - 1

/-- The adapter's declared `MAX_VALUE_SIZE`, which the source sets to
`usize::MAX` (values are unbounded at this layer). -/
def MAX_VALUE_SIZE : Nat := USIZE_MAX

/-- The only error the adapter itself raises: `ViewError::KeyTooLong`
(other `ViewError` variants never originate in this file). -/
inductive ViewError where
  | KeyTooLong
deriving DecidableEq, Repr

/-- Abstract write operations of `linera_views::batch::WriteOperation`. -/
inductive WriteOperation where
  | Delete (key : Bytes)
  | Put (key : Bytes) (value : Bytes)
  | DeletePrefix (keyPre : Bytes)
deriving DecidableEq, Repr

/-- A `Batch` is an ordered sequence of write operations. -/
structure Batch where
  operations : List WriteOperation
deriving DecidableEq, Repr

/-- Host-side write operations (`wit::WriteOperation`): `Delete`, `Put`
over a key/value pair, and `Deleteprefix`. -/
inductive WitWriteOperation where
  | Delete (key : Bytes)
  | Put (kv : Bytes × Bytes)
  | DeletePrefix (keyPre : Bytes)
deriving DecidableEq, Repr

/-- One host call issued by the adapter: either one of the five read
promises (`wit::ContainsKey::new`, `wit::ReadValueBytes::new`,
`wit::ReadMultiValuesBytes::new`, `wit::FindKeys::new`,
`wit::FindKeyValues::new`) or the synchronous `wit::write_batch`. -/
inductive HostCall where
  | ContainsKey (key : Bytes)
  | ReadValueBytes (key : Bytes)
  | ReadMultiValuesBytes (keys : List Bytes)
  | FindKeys (keyPre : Bytes)
  | FindKeyValues (keyPre : Bytes)
  | WriteBatch (ops : List WitWriteOperation)
deriving DecidableEq, Repr

/-- The host's responses to the five read primitives; the adapter treats
the host as an oracle that has the answer ready after one suspension. -/
structure Host where
  containsKey : Bytes → Bool
  readValueBytes : Bytes → Option Bytes
  readMultiValuesBytes : List Bytes → List (Option Bytes)
  findKeys : Bytes → List Bytes
  findKeyValues : Bytes → List (Bytes × Bytes)

instance {ε α : Type} [DecidableEq ε] [DecidableEq α] : DecidableEq (Except ε α)
  | .error a, .error b =>
    if h : a = b then isTrue (congrArg Except.error h)
    else isFalse (fun hh => h (Except.error.inj hh))
  | .error _, .ok _ => isFalse Except.noConfusion
  | .ok _, .error _ => isFalse Except.noConfusion
  | .ok a, .ok b =>
    if h : a = b then isTrue (congrArg Except.ok h)
    else isFalse (fun hh => h (Except.ok.inj hh))

/-- The observable outcome of one adapter entry point: the value or error
returned, the host calls issued (in order), and how many times the task
suspended (`yield_once().await`). -/
structure CallResult (α : Type) where
  result : Except ViewError α
  hostCalls : List HostCall
  suspensions : Nat
deriving DecidableEq, Repr

/-- The stateless store adapter type (`pub struct AppStateStore;`). -/
structure AppStateStore where
deriving DecidableEq, Repr

/-- Declared limit on concurrently outstanding stream (scan) queries:
`fn max_stream_queries(&self) -> usize { 1 }`. -/
def AppStateStore.max_stream_queries (_ : AppStateStore) : Nat := 1

/-- Embeds `AppStateStore::contains_key`: ensure the key fits, then
construct a `ContainsKey` promise, yield once, and poll it. -/
def contains_key (host : Host) (key : Bytes) : CallResult Bool :=
  if key.length ≤ MAX_KEY_SIZE then
    ⟨.ok (host.containsKey key), [.ContainsKey key], 1⟩
  else
    ⟨.error .KeyTooLong, [], 0⟩

/-- Embeds `AppStateStore::read_value_bytes`: ensure the key fits, then
construct a `ReadValueBytes` promise, yield once, and poll it. -/
def read_value_bytes (host : Host) (key : Bytes) : CallResult (Option Bytes) :=
  if key.length ≤ MAX_KEY_SIZE then
    ⟨.ok (host.readValueBytes key), [.ReadValueBytes key], 1⟩
  else
    ⟨.error .KeyTooLong, [], 0⟩

/-- Embeds `AppStateStore::read_multi_values_bytes`: the source loops
`for key in &keys { ensure!(key.len() <= MAX_KEY_SIZE, KeyTooLong) }`
before constructing the single `ReadMultiValuesBytes` promise. -/
def read_multi_values_bytes (host : Host) (keys : List Bytes) :
    CallResult (List (Option Bytes)) :=
  if keys.all (fun key => key.length ≤ MAX_KEY_SIZE) then
    ⟨.ok (host.readMultiValuesBytes keys), [.ReadMultiValuesBytes keys], 1⟩
  else
    ⟨.error .KeyTooLong, [], 0⟩

/-- Embeds `AppStateStore::find_keys_by_prefix` (with its helper
`find_keys_by_prefix_load`): validate, construct `FindKeys`, yield once,
poll. -/
def findKeysByPre (host : Host) (keyPre : Bytes) : CallResult (List Bytes) :=
  if keyPre.length ≤ MAX_KEY_SIZE then
    ⟨.ok (host.findKeys keyPre), [.FindKeys keyPre], 1⟩
  else
    ⟨.error .KeyTooLong, [], 0⟩

/-- Embeds `AppStateStore::find_key_values_by_prefix` (with its helper
`find_key_values_by_prefix_load`): validate, construct `FindKeyValues`,
yield once, poll. -/
def findKeyValuesByPre (host : Host) (keyPre : Bytes) :
    CallResult (List (Bytes × Bytes)) :=
  if keyPre.length ≤ MAX_KEY_SIZE then
    ⟨.ok (host.findKeyValues keyPre), [.FindKeyValues keyPre], 1⟩
  else
    ⟨.error .KeyTooLong, [], 0⟩

/-- The key (or key-prefix) bytes an operation references; used to state
the validation condition uniformly across the three variants. -/
def opKeyBytes : WriteOperation → Bytes
  | .Delete key => key
  | .Put key _ => key
  | .DeletePrefix keyPre => keyPre

/-- The pointwise source-to-host operation mapping performed by the
`write_batch` loop body on a validated operation. -/
def opToHost : WriteOperation → WitWriteOperation
  | .Delete key => .Delete key
  | .Put key value => .Put (key, value)
  | .DeletePrefix keyPre => .DeletePrefix keyPre

/-- Embeds the translation loop of `AppStateStore::write_batch`: for each
operation in order, match on its variant, ensure its key or key-prefix
fits (short-circuiting with `KeyTooLong` at the first violation), and
push the corresponding host operation. Pure: no host call, no yield. -/
def translateBatch : List WriteOperation → Except ViewError (List WitWriteOperation)
  | [] => .ok []
  | .Delete key :: rest =>
    if key.length ≤ MAX_KEY_SIZE then
      (translateBatch rest).map (fun ops => .Delete key :: ops)
    else
      .error .KeyTooLong
  | .Put key value :: rest =>
    if key.length ≤ MAX_KEY_SIZE then
      (translateBatch rest).map (fun ops => .Put (key, value) :: ops)
    else
      .error .KeyTooLong
  | .DeletePrefix keyPre :: rest =>
    if keyPre.length ≤ MAX_KEY_SIZE then
      (translateBatch rest).map (fun ops => .DeletePrefix keyPre :: ops)
    else
      .error .KeyTooLong

/-- Embeds `AppStateStore::write_batch`: translate the batch, then submit
the host operation list through the direct call `wit::write_batch(...)`
(the source has no promise and no `yield_once` here), and return `Ok(())`.
The `_base_key` argument is ignored, as in the source. -/
def write_batch (batch : Batch) (_base_key : Bytes) : CallResult Unit :=
  match translateBatch batch.operations with
  | .ok ops => ⟨.ok (), [.WriteBatch ops], 0⟩
  | .error e => ⟨.error e, [], 0⟩

/-- Embeds `AppStateStore::clear_journal`: `async fn clear_journal(&self,
_base_key: &[u8]) -> Result<(), ViewError> { Ok(()) }`. -/
def clear_journal (_base_key : Bytes) : CallResult Unit :=
  ⟨.ok (), [], 0⟩

/-- A concrete host used for evaluating the adapter at specific inputs. -/
def trivialHost : Host :=
  ⟨fun _ => false, fun _ => none, fun keys => keys.map (fun _ => none),
   fun _ => [], fun _ => []⟩

/-- A concrete 901-byte key, one byte over the limit. -/
def key901 : Bytes := List.replicate 901 0

/-- Helper: the length of the concrete oversized key. -/
theorem key901_length : key901.length = 901 := by
  show (List.replicate 901 (0 : Nat)).length = 901
  rw [List.length_replicate]

/-- Helper: the concrete oversized key exceeds the limit. -/
theorem key901_oversized : MAX_KEY_SIZE < key901.length := by
  rw [key901_length]
  decide

/-- Characterisation of the translation loop: it yields the pointwise
host-operation image when every key fits, and `KeyTooLong` otherwise. -/
theorem translateBatch_eq (ops : List WriteOperation) :
    translateBatch ops =
      if ∀ op ∈ ops, (opKeyBytes op).length ≤ MAX_KEY_SIZE then
        .ok (ops.map opToHost)
      else
        .error .KeyTooLong := by
  induction ops with
  | nil => simp [translateBatch]
  | cons op rest ih =>
    by_cases hk : (opKeyBytes op).length ≤ MAX_KEY_SIZE
    · by_cases hr : ∀ o ∈ rest, (opKeyBytes o).length ≤ MAX_KEY_SIZE
      · have hall : ∀ o ∈ op :: rest, (opKeyBytes o).length ≤ MAX_KEY_SIZE := by
          intro o ho
          rcases List.mem_cons.mp ho with rfl | h2
          · exact hk
          · exact hr o h2
        rw [if_pos hall]
        cases op with
        | Delete key =>
          simp only [opKeyBytes] at hk
          simp only [translateBatch, ih, if_pos hk, if_pos hr]
          simp [opToHost, Except.map]
        | Put key value =>
          simp only [opKeyBytes] at hk
          simp only [translateBatch, ih, if_pos hk, if_pos hr]
          simp [opToHost, Except.map]
        | DeletePrefix keyPre =>
          simp only [opKeyBytes] at hk
          simp only [translateBatch, ih, if_pos hk, if_pos hr]
          simp [opToHost, Except.map]
      · rw [if_neg (fun hall => hr (fun o ho => hall o (List.mem_cons_of_mem op ho)))]
        cases op with
        | Delete key =>
          simp only [opKeyBytes] at hk
          simp only [translateBatch, ih, if_pos hk, if_neg hr]
          simp [Except.map]
        | Put key value =>
          simp only [opKeyBytes] at hk
          simp only [translateBatch, ih, if_pos hk, if_neg hr]
          simp [Except.map]
        | DeletePrefix keyPre =>
          simp only [opKeyBytes] at hk
          simp only [translateBatch, ih, if_pos hk, if_neg hr]
          simp [Except.map]
    · rw [if_neg (fun hall => hk (hall op (List.mem_cons_self op rest)))]
      cases op with
      | Delete key =>
        simp only [opKeyBytes] at hk
        simp only [translateBatch, if_neg hk]
      | Put key value =>
        simp only [opKeyBytes] at hk
        simp only [translateBatch, if_neg hk]
      | DeletePrefix keyPre =>
        simp only [opKeyBytes] at hk
        simp only [translateBatch, if_neg hk]

/-- Helper: the translation succeeds pointwise when every key fits. -/
theorem translateBatch_ok_of_valid (ops : List WriteOperation)
    (h : ∀ op ∈ ops, (opKeyBytes op).length ≤ MAX_KEY_SIZE) :
    translateBatch ops = .ok (ops.map opToHost) := by
  rw [translateBatch_eq, if_pos h]

/-- Helper: the translation fails with `KeyTooLong` when some operation
references an oversized key or key-prefix. -/
theorem translateBatch_error_of_oversized (ops : List WriteOperation)
    (h : ∃ op ∈ ops, MAX_KEY_SIZE < (opKeyBytes op).length) :
    translateBatch ops = .error .KeyTooLong := by
  rw [translateBatch_eq, if_neg]
  intro hall
  obtain ⟨op, hmem, hlen⟩ := h
  exact absurd (hall op hmem) (Nat.not_le.mpr hlen)

/-- C1: every read or write entry point of the adapter, given a key (or
key-prefix) argument longer than `MAX_KEY_SIZE = 900` bytes, returns the
`KeyTooLong` error with zero host calls and zero suspensions; in
particular `read_multi_values_bytes` fails without any host call as soon
as any key of its input sequence is too long, and `write_batch` fails
without any host call when any of its operations references the key. -/
theorem oversized_key_rejected (key : Bytes)
    (h : MAX_KEY_SIZE < key.length) (host : Host) :
    contains_key host key = ⟨.error .KeyTooLong, [], 0⟩ ∧
    read_value_bytes host key = ⟨.error .KeyTooLong, [], 0⟩ ∧
    (∀ keys, key ∈ keys →
      read_multi_values_bytes host keys = ⟨.error .KeyTooLong, [], 0⟩) ∧
    findKeysByPre host key = ⟨.error .KeyTooLong, [], 0⟩ ∧
    findKeyValuesByPre host key = ⟨.error .KeyTooLong, [], 0⟩ ∧
    (∀ batch bk, (∃ op ∈ batch.operations, opKeyBytes op = key) →
      write_batch batch bk = ⟨.error .KeyTooLong, [], 0⟩) := by
  have hn : ¬ key.length ≤ MAX_KEY_SIZE := Nat.not_le.mpr h
  refine ⟨?_, ?_, ?_, ?_, ?_, ?_⟩
  · simp [contains_key, hn]
  · simp [read_value_bytes, hn]
  · intro keys hmem
    have hall : ¬ keys.all (fun k => decide (k.length ≤ MAX_KEY_SIZE)) = true := by
      intro hall
      exact hn (by simpa using List.all_eq_true.mp hall key hmem)
    simp only [read_multi_values_bytes, if_neg hall]
  · simp [findKeysByPre, hn]
  · simp [findKeyValuesByPre, hn]
  · intro batch bk hop
    obtain ⟨op, hopmem, hopkey⟩ := hop
    have herr : translateBatch batch.operations = .error .KeyTooLong :=
      translateBatch_error_of_oversized batch.operations
        ⟨op, hopmem, by rw [hopkey]; exact h⟩
    simp [write_batch, herr]

/-- Witness for C1: a concrete 901-byte key is rejected by
`contains_key`, by `read_multi_values_bytes` (as one of two keys, the
other valid), and by `write_batch`, each with zero host calls. -/
theorem oversized_key_rejected_at_901 :
    MAX_KEY_SIZE < key901.length ∧
    contains_key trivialHost key901 = ⟨.error .KeyTooLong, [], 0⟩ ∧
    read_multi_values_bytes trivialHost [[], key901] = ⟨.error .KeyTooLong, [], 0⟩ ∧
    write_batch ⟨[.Delete key901]⟩ [] = ⟨.error .KeyTooLong, [], 0⟩ := by
  have h : MAX_KEY_SIZE < key901.length := key901_oversized
  have hmain := oversized_key_rejected key901 h trivialHost
  exact ⟨h, hmain.1, hmain.2.2.1 [[], key901] (by simp),
    hmain.2.2.2.2.2 ⟨[.Delete key901]⟩ [] ⟨.Delete key901, by simp, rfl⟩⟩

/-- C2: if any operation of a batch references a key or key-prefix longer
than 900 bytes, `write_batch` fails with `KeyTooLong` and the host's
`write_batch` primitive is never invoked (the host-call list is empty):
the whole batch is rejected. -/
theorem write_batch_rejects_whole_batch (batch : Batch) (bk : Bytes)
    (h : ∃ op ∈ batch.operations, MAX_KEY_SIZE < (opKeyBytes op).length) :
    write_batch batch bk = ⟨.error .KeyTooLong, [], 0⟩ := by
  have herr := translateBatch_error_of_oversized batch.operations h
  simp [write_batch, herr]

/-- Witness for C2: a batch holding a valid `Put` followed by a
`DeletePrefix` with a 901-byte prefix is rejected whole, with zero host
calls. -/
theorem write_batch_rejects_whole_batch_at_901 :
    (∃ op ∈ [WriteOperation.Put [0] [1], WriteOperation.DeletePrefix key901],
      MAX_KEY_SIZE < (opKeyBytes op).length) ∧
    write_batch ⟨[.Put [0] [1], .DeletePrefix key901]⟩ [] =
      ⟨.error .KeyTooLong, [], 0⟩ := by
  have h : ∃ op ∈ [WriteOperation.Put [0] [1], WriteOperation.DeletePrefix key901],
      MAX_KEY_SIZE < (opKeyBytes op).length :=
    ⟨.DeletePrefix key901, by simp, by simp only [opKeyBytes]; exact key901_oversized⟩
  exact ⟨h, write_batch_rejects_whole_batch ⟨[.Put [0] [1], .DeletePrefix key901]⟩ [] h⟩

/-- C3: for a batch whose keys and key-prefixes all fit in 900 bytes, the
translation is exactly the pointwise image of the input operations, in
order and of the same length, mapping `Put` to host `Put`, `Delete` to
host `Delete` and `DeletePrefix` to host `DeletePrefix`; `write_batch`
then issues that single host operation list. -/
theorem write_batch_translation_pointwise (ops : List WriteOperation) (bk : Bytes)
    (h : ∀ op ∈ ops, (opKeyBytes op).length ≤ MAX_KEY_SIZE) :
    translateBatch ops = .ok (ops.map opToHost) ∧
    (ops.map opToHost).length = ops.length ∧
    write_batch ⟨ops⟩ bk = ⟨.ok (), [.WriteBatch (ops.map opToHost)], 0⟩ := by
  have hok := translateBatch_ok_of_valid ops h
  exact ⟨hok, ops.length_map opToHost, by simp [write_batch, hok]⟩

/-- Witness for C3: the batch `[Put(a,1), Delete(a)]` translates to the
host list `[Put(a,1), Delete(a)]` in that order. -/
theorem write_batch_translation_pointwise_put_delete :
    (∀ op ∈ [WriteOperation.Put [0] [1], WriteOperation.Delete [0]],
      (opKeyBytes op).length ≤ MAX_KEY_SIZE) ∧
    write_batch ⟨[.Put [0] [1], .Delete [0]]⟩ [] =
      ⟨.ok (), [.WriteBatch [.Put ([0], [1]), .Delete [0]]], 0⟩ := by
  have h : ∀ op ∈ [WriteOperation.Put [0] [1], WriteOperation.Delete [0]],
      (opKeyBytes op).length ≤ MAX_KEY_SIZE := by decide
  exact ⟨h,
    (write_batch_translation_pointwise [.Put [0] [1], .Delete [0]] [] h).2.2⟩

/-- C4 counterexample: `write_batch` on the empty batch issues its
`WriteBatch` host call yet suspends zero times, not once — the source
calls `wit::write_batch(&operations)` directly, with no promise and no
`yield_once().await`, so the claim that every host-call operation
(including the `WriteBatch` submission) suspends exactly once is false. -/
theorem write_batch_host_call_without_suspension :
    (write_batch ⟨[]⟩ []).hostCalls = [.WriteBatch []] ∧
    (write_batch ⟨[]⟩ []).suspensions ≠ 1 := by
  exact ⟨rfl, by decide⟩

/-- C4 amended: each of the five promise-based read operations
(`contains_key`, `read_value_bytes`, `read_multi_values_bytes`,
`find_keys_by_prefix`, `find_key_values_by_prefix`) suspends exactly
once between issuing its host call and observing the result, while
`write_batch` submits its single host call synchronously with zero
suspensions. -/
theorem host_call_suspension_counts (host : Host) (key : Bytes)
    (hkey : key.length ≤ MAX_KEY_SIZE) (keys : List Bytes)
    (hkeys : ∀ k ∈ keys, k.length ≤ MAX_KEY_SIZE)
    (batch : Batch) (bk : Bytes)
    (hbatch : ∀ op ∈ batch.operations, (opKeyBytes op).length ≤ MAX_KEY_SIZE) :
    (contains_key host key).suspensions = 1 ∧
    (contains_key host key).hostCalls.length = 1 ∧
    (read_value_bytes host key).suspensions = 1 ∧
    (read_value_bytes host key).hostCalls.length = 1 ∧
    (read_multi_values_bytes host keys).suspensions = 1 ∧
    (read_multi_values_bytes host keys).hostCalls.length = 1 ∧
    (findKeysByPre host key).suspensions = 1 ∧
    (findKeysByPre host key).hostCalls.length = 1 ∧
    (findKeyValuesByPre host key).suspensions = 1 ∧
    (findKeyValuesByPre host key).hostCalls.length = 1 ∧
    (write_batch batch bk).suspensions = 0 ∧
    (write_batch batch bk).hostCalls.length = 1 := by
  have hall : keys.all (fun k => decide (k.length ≤ MAX_KEY_SIZE)) = true := by
    rw [List.all_eq_true]
    intro k hk
    exact decide_eq_true (hkeys k hk)
  have hok := translateBatch_ok_of_valid batch.operations hbatch
  refine ⟨?_, ?_, ?_, ?_, ?_, ?_, ?_, ?_, ?_, ?_, ?_, ?_⟩ <;>
    simp [contains_key, read_value_bytes, read_multi_values_bytes,
      findKeysByPre, findKeyValuesByPre, write_batch, hkey, hall, hok]

/-- Witness for the amended C4 at concrete inputs: an empty key, a
singleton key list, and the empty batch. -/
theorem host_call_suspension_counts_at_empty :
    ([] : Bytes).length ≤ MAX_KEY_SIZE ∧
    (contains_key trivialHost []).suspensions = 1 ∧
    (read_multi_values_bytes trivialHost [[]]).suspensions = 1 ∧
    (write_batch ⟨[]⟩ []).suspensions = 0 := by
  have h := host_call_suspension_counts trivialHost [] (by decide) [[]]
    (by intro k hk; rw [List.mem_singleton.mp hk]; decide) ⟨[]⟩ [] (by simp)
  exact ⟨by decide, h.1, h.2.2.2.2.1, h.2.2.2.2.2.2.2.2.2.2.1⟩

/-- C5: `write_batch` returns the unit success value exactly when every
key and key-prefix in the batch fits in 900 bytes, and fails with
`KeyTooLong` exactly when that validation (the translation) fails. -/
theorem write_batch_ok_iff (batch : Batch) (bk : Bytes) :
    ((write_batch batch bk).result = .ok () ↔
      ∀ op ∈ batch.operations, (opKeyBytes op).length ≤ MAX_KEY_SIZE) ∧
    ((write_batch batch bk).result = .error .KeyTooLong ↔
      ¬ ∀ op ∈ batch.operations, (opKeyBytes op).length ≤ MAX_KEY_SIZE) := by
  by_cases h : ∀ op ∈ batch.operations, (opKeyBytes op).length ≤ MAX_KEY_SIZE
  · have hok := translateBatch_ok_of_valid batch.operations h
    refine ⟨iff_of_true ?_ h, iff_of_false ?_ (not_not_intro h)⟩
    · simp [write_batch, hok]
    · simp [write_batch, hok]
  · have hex : ∃ op ∈ batch.operations, MAX_KEY_SIZE < (opKeyBytes op).length := by
      push_neg at h
      exact h
    have herr := translateBatch_error_of_oversized batch.operations hex
    refine ⟨iff_of_false ?_ h, iff_of_true ?_ h⟩
    · simp [write_batch, herr]
    · simp [write_batch, herr]

/-- C6: the adapter's maximum key size is the constant 900 (strictly
below the 1024-byte backing-store limit minus the 4 bytes of
value-splitting overhead, leaving base-key headroom), its declared
maximum value size is `usize::MAX` (unbounded at this layer), and no
entry point rejects an input because of value length: a `Put` with a
valid key succeeds whatever the value is. -/
theorem size_constants (key value bk : Bytes)
    (h : key.length ≤ MAX_KEY_SIZE) :
    MAX_KEY_SIZE = 900 ∧
    MAX_KEY_SIZE ≤ 1024 - 4 ∧
    MAX_VALUE_SIZE = USIZE_MAX ∧
    (write_batch ⟨[.Put key value]⟩ bk).result = .ok () := by
  refine ⟨rfl, by decide, rfl, ?_⟩
  have hok := translateBatch_ok_of_valid [.Put key value]
    (by intro op hop; rw [List.mem_singleton.mp hop]; exact h)
  simp [write_batch, hok]

/-- Witness for C6: a 1000-byte value is accepted under an empty key. -/
theorem size_constants_large_value :
    ([] : Bytes).length ≤ MAX_KEY_SIZE ∧
    (write_batch ⟨[.Put [] (List.replicate 1000 7)]⟩ []).result = .ok () :=
  ⟨by decide, (size_constants [] (List.replicate 1000 7) [] (by decide)).2.2.2⟩

/-- C7: `clear_journal` always succeeds, for every `base_key` input, with
zero host calls and zero suspensions. -/
theorem clear_journal_always_succeeds (bk : Bytes) :
    clear_journal bk = ⟨.ok (), [], 0⟩ := rfl

/-- C8: the declared limit on concurrently outstanding stream (scan)
queries equals exactly one for every store instance. -/
theorem max_stream_queries_is_one (s : AppStateStore) :
    s.max_stream_queries = 1 := rfl

/-- C9: `write_batch` and `clear_journal` ignore their `base_key`
argument entirely: for any batch and any two base keys, the two runs
return the same result, issue the same host calls, and suspend the same
number of times. -/
theorem base_key_ignored (batch : Batch) (b1 b2 : Bytes) :
    write_batch batch b1 = write_batch batch b2 ∧
    clear_journal b1 = clear_journal b2 :=
  ⟨rfl, rfl⟩

/-- C10: on the empty batch, `write_batch` does not short-circuit: it
still invokes the host `write_batch` primitive exactly once, with the
empty operation list, and returns success. -/
theorem write_batch_empty_still_calls_host (bk : Bytes) :
    write_batch ⟨[]⟩ bk = ⟨.ok (), [.WriteBatch []], 0⟩ := rfl
